import Mathlib

/-!
Shallow embedding of `source/static/js/charts/topology.js` (kytos web UI):
the d3 force-topology node/link model, the type-aware drag constraint
handlers, the visibility toggles, and the layout capture/restore code.

Conventions of the embedding:
* JS numbers are real numbers (`ℝ`); `fx`/`fy` are `Option ℝ` where `none`
  stands for the JS `undefined`/`null` pin state (the code only ever tests
  them with `== undefined`, which is true for both).
* d3 link objects hold references to the shared node objects; here links
  store the node names, and node objects are resolved with `findNode`
  (names are unique within a topology snapshot).
* A function that JS would abort with a thrown `TypeError` (dereferencing a
  `null` owner) or that would poison the state with `NaN` (arithmetic on an
  `undefined` coordinate) returns `none` here; those abnormal branches are
  marked in the doc comments of the definitions below.
-/

namespace Kytos

/-- Per-type node radius (source object `size`). -/
def size (t : String) : ℝ :=
  if t == "switch" then 20 else if t == "interface" then 5
  else if t == "host" then 10 else 0

/-- Per-type link target distance (source object `distance`); the interface
ring radius is `size "switch" + 10`. -/
def distance (t : String) : ℝ :=
  if t == "link" then 20 * size "switch"
  else if t == "interface" then size "switch" + 10
  else if t == "host" then 5 * size "interface" else 0

/-- Character-level behaviour of `fix_name`: `name.replace(/:/g, '__')`
replaces every colon by two underscores. -/
def fixChars : List Char → List Char
  | [] => []
  | c :: rest => if c == ':' then '_' :: '_' :: fixChars rest else c :: fixChars rest

/-- Character-level behaviour of `unfix_name`: `name.replace(/\_\_/g, ':')`
scans left to right and replaces each non-overlapping `__` by `:`. -/
def unfixChars : List Char → List Char
  | [] => []
  | [c] => [c]
  | a :: b :: rest =>
    if a == '_' && b == '_' then ':' :: unfixChars rest
    else a :: unfixChars (b :: rest)

/-- `fix_name(name)`: escape colons in a node name for use inside an element id. -/
def fix_name (s : String) : String := ⟨fixChars s.data⟩

/-- `unfix_name(name)`: the inverse escape offered by the source. -/
def unfix_name (s : String) : String := ⟨unfixChars s.data⟩

/-- A simulation node: identity (`name`, `type`), simulated position,
optional pinned position, the drag bookkeeping fields of the switch branch,
and the two CSS classes (`downlight`, `invisible`) of its drawn circle. -/
structure Node where
  name : String
  type : String
  x : ℝ := 0
  y : ℝ := 0
  fx : Option ℝ := none
  fy : Option ℝ := none
  old_fx : Option ℝ := none
  old_fy : Option ℝ := none
  downlight : Bool := false
  invisible : Bool := false

/-- A link; `source` and `target` hold node names (d3 resolves them to the
shared node objects, which this embedding recovers with `findNode`). -/
structure Link where
  type : String
  source : String
  target : String

/-- The page state: the simulation's node and link arrays plus the two
visibility checkboxes. -/
structure State where
  nodes : List Node
  links : List Link
  hide_unused_interfaces : Bool := false
  hide_disconnected_hosts : Bool := false

/-- The id given to a node's circle: `"node-" + d.type + "-" + fix_name(d.name)`. -/
def nodeId (n : Node) : String := "node-" ++ n.type ++ "-" ++ fix_name n.name

/-- Resolve a node object from its name. -/
def findNode (ns : List Node) (nm : String) : Option Node :=
  ns.find? (fun n => n.name == nm)

/-- Mutate the node object called `nm` in place (name lookup stands for the
object identity of the shared d3 node objects). -/
def updateNode (ns : List Node) (nm : String) (f : Node → Node) : List Node :=
  ns.map (fun n => if n.name == nm then f n else n)

/-- `d3.select("#id")` mutates the first matching DOM element; the drawn
circles appear in node-array order. -/
def setFirst (ns : List Node) (p : Node → Bool) (f : Node → Node) : List Node :=
  match ns with
  | [] => []
  | n :: rest => if p n then f n :: rest else n :: setFirst rest p f

/-- `get_interface_owner(d)`: scan all links and remember the source of the
last "interface"-type link whose target is `d`; `none` when no such link
exists (the JS function returns `null`). -/
def get_interface_owner (st : State) (d : Node) : Option Node :=
  (st.links.foldl
      (fun acc link =>
        if link.type == "interface" && link.target == d.name then some link.source else acc)
      none).bind
    (fun nm => findNode st.nodes nm)

/-- `get_switch_interfaces(d)`: the targets of all "interface"-type links
whose source is `d`. -/
def get_switch_interfaces (st : State) (d : Node) : List Node :=
  (st.links.filter (fun l => l.type == "interface" && l.source == d.name)).filterMap
    (fun l => findNode st.nodes l.target)

/-- `get_nodes_by_type(type)`. -/
def get_nodes_by_type (st : State) (t : String) : List Node :=
  st.nodes.filter (fun n => n.type == t)

/-- `get_interfaces()`. -/
def get_interfaces (st : State) : List Node := get_nodes_by_type st "interface"

/-- `get_hosts()`. -/
def get_hosts (st : State) : List Node := get_nodes_by_type st "host"

/-- `get_node_links(node)`: every link whose source or target is the node. -/
def get_node_links (st : State) (node : Node) : List Link :=
  st.links.filter (fun l => l.target == node.name || l.source == node.name)

/-- `Math.atan2(y, x)`, embedded as the argument of the complex number `x + y*i`. -/
noncomputable def atan2 (y x : ℝ) : ℝ := Complex.arg ⟨x, y⟩

/-- `radius_positioning(cx, cy, x, y)`: re-project the pointer onto the
interface ring of radius `distance "interface"` around `(cx, cy)`. -/
noncomputable def radius_positioning (cx cy x y : ℝ) : ℝ × ℝ :=
  let rad := atan2 (y - cy) (x - cx)
  (cx + Real.cos rad * distance "interface", cy + Real.sin rad * distance "interface")

/-- The center the interface branch of `dragged` reads from the owner:
`(fx, fy)` when `owner.fx` is set, else `(x, y)`. `none` marks the
half-pinned corner (`fx` set, `fy` unset) whose JS arithmetic yields `NaN`,
left unmodelled. -/
def effectiveCenter (n : Node) : Option (ℝ × ℝ) :=
  match n.fx, n.fy with
  | none, _ => some (n.x, n.y)
  | some a, some b => some (a, b)
  | some _, none => none

/-- The per-interface update of the switch branch of `dragged`: an unpinned
interface (`fx == undefined`) is first pinned at its current `(x, y)`, then
the pin is translated by the drag delta. -/
def dragInterfaceShift (dx dy : ℝ) (n : Node) : Node :=
  let n1 := if n.fx.isNone then { n with fx := some n.x, fy := some n.y } else n
  { n1 with fx := n1.fx.map (· + dx), fy := n1.fy.map (· + dy) }

/-- `dragged(d)`, identified by the dragged node's name plus the pointer
position `(px, py)`.  `none` models the abnormal outcomes: the thrown
`TypeError` when an interface's owner resolves to `null` (the code
dereferences `owner.fx` unconditionally), and the `NaN` poisoning when a
coordinate read as a number is `undefined`. -/
noncomputable def dragged (st : State) (dname : String) (px py : ℝ) : Option State :=
  match findNode st.nodes dname with
  | none => none
  | some d =>
    if d.type == "switch" then
      match d.fx, d.fy with
      | some ofx, some ofy =>
        let dx := px - ofx
        let dy := py - ofy
        let ns1 := updateNode st.nodes dname
          (fun n => { n with old_fx := n.fx, old_fy := n.fy, fx := some px, fy := some py })
        let ifaces := get_switch_interfaces st d
        some { st with
          nodes := ifaces.foldl (fun acc i => updateNode acc i.name (dragInterfaceShift dx dy)) ns1 }
      | _, _ => none
    else if d.type == "interface" then
      match get_interface_owner st d with
      | none => none
      | some owner =>
        match effectiveCenter owner with
        | none => none
        | some (cx, cy) =>
          let np := radius_positioning cx cy px py
          some { st with
            nodes := updateNode st.nodes dname (fun n => { n with fx := some np.1, fy := some np.2 }) }
    else
      some { st with
        nodes := updateNode st.nodes dname (fun n => { n with fx := some px, fy := some py }) }

/-- `release_node(d)` (double-click): clear the node's pin; a switch also
releases every interface it owns. -/
def release_node (st : State) (d : Node) : State :=
  let ns1 := updateNode st.nodes d.name (fun n => { n with fx := none, fy := none })
  if d.type == "switch" then
    { st with
      nodes := (get_switch_interfaces st d).foldl
        (fun acc i => updateNode acc i.name (fun n => { n with fx := none, fy := none })) ns1 }
  else
    { st with nodes := ns1 }

/-- `toggle_unused_interfaces(hide)`: for every interface with no
"link"-type link, set the `invisible` class of the circle with id
`node-interface-<fixed name>` to `hide`. -/
def toggle_unused_interfaces (st : State) (hide : Bool) : State :=
  { st with
    nodes := (get_interfaces st).foldl
      (fun acc iface =>
        if (get_node_links st iface).any (fun l => l.type == "link") then acc
        else
          setFirst acc (fun m => nodeId m == "node-interface-" ++ fix_name iface.name)
            (fun m => { m with invisible := hide }))
      st.nodes }

/-- `toggle_disconnected_hosts(hide)`: for every host with no links at all,
set the `invisible` class of the circle with id `node-host-<fixed name>`. -/
def toggle_disconnected_hosts (st : State) (hide : Bool) : State :=
  { st with
    nodes := (get_hosts st).foldl
      (fun acc host =>
        if (get_node_links st host).length == 0 then
          setFirst acc (fun m => nodeId m == "node-host-" ++ fix_name host.name)
            (fun m => { m with invisible := hide })
        else acc)
      st.nodes }

/-- Modelled from the spec: the click handler of the hide-unused-interfaces
checkbox is not part of this file; per the spec a synthesized click flips
the checkbox and re-applies the unused-interface visibility rule with the
new value. -/
def clickUnusedCheckbox (st : State) : State :=
  let v := !st.hide_unused_interfaces
  toggle_unused_interfaces { st with hide_unused_interfaces := v } v

/-- Modelled from the spec: the click handler of the hide-disconnected-hosts
checkbox, analogous to `clickUnusedCheckbox`. -/
def clickHostsCheckbox (st : State) : State :=
  let v := !st.hide_disconnected_hosts
  toggle_disconnected_hosts { st with hide_disconnected_hosts := v } v

/-- One entry of a persisted layout's `nodes` object. -/
structure LayoutNode where
  name : String
  type : String
  x : ℝ
  y : ℝ
  fx : Option ℝ
  fy : Option ℝ
  downlight : Bool

/-- A persisted layout. The JS `nodes` object is keyed by node name with
last-write-wins assignment; the list below is built by prepending, so
`List.lookup` (first match) returns exactly the last write. -/
structure Layout where
  nodes : List (String × LayoutNode)
  hide_unused_interfaces : Bool
  hide_disconnected_hosts : Bool

/-- Reading `.classed('downlight')` of `d3.select('#' + id)`: the class of
the first drawn circle whose id matches. -/
def domDownlight (st : State) (id : String) : Bool :=
  ((st.nodes.find? (fun m => nodeId m == id)).map (fun m => m.downlight)).getD false

/-- The `node_data` record `get_current_layout` builds for one node: name,
type, position, pin, and the `downlight` class read back from the DOM by id. -/
def captureNode (st : State) (node : Node) : LayoutNode :=
  { name := node.name, type := node.type, x := node.x, y := node.y,
    fx := node.fx, fy := node.fy,
    downlight := domDownlight st (nodeId node) }

/-- `get_current_layout()`: snapshot every node's `node_data` keyed by node
name (JS object assignment; last write wins, hence the prepend), plus both
checkboxes. -/
def get_current_layout (st : State) : Layout :=
  { nodes := st.nodes.foldl (fun acc node => (node.name, captureNode st node) :: acc) [],
    hide_unused_interfaces := st.hide_unused_interfaces,
    hide_disconnected_hosts := st.hide_disconnected_hosts }

/-- `restore_layout(name)` applied to an already-fetched layout: for every
live node whose name is a key of `layout.nodes`, overwrite `x`, `y`, `fx`,
`fy` and set the `downlight` class of the circle selected by id; then click
each visibility checkbox iff its stored value differs from the current one;
(the final `simulation.restart()` does not change any node field). -/
def restore_layout (st : State) (layout : Layout) : State :=
  let ns := st.nodes.foldl
    (fun acc node =>
      match layout.nodes.lookup node.name with
      | none => acc
      | some r =>
        let acc1 := updateNode acc node.name
          (fun m => { m with x := r.x, y := r.y, fx := r.fx, fy := r.fy })
        setFirst acc1 (fun m => nodeId m == nodeId node)
          (fun m => { m with downlight := r.downlight }))
    st.nodes
  let st1 : State := { st with nodes := ns }
  let st2 := if layout.hide_unused_interfaces != st1.hide_unused_interfaces
    then clickUnusedCheckbox st1 else st1
  if layout.hide_disconnected_hosts != st2.hide_disconnected_hosts
    then clickHostsCheckbox st2 else st2

/-- User-visible events of `save_layout()`, in the order they happen. -/
inductive SaveEvent where
  | alertChooseName
  | postIssued (name : String)
  | modalHide
  | requestResolved (ok : Bool)
  | alertSaved (name : String)
deriving DecidableEq

/-- Event trace of `save_layout()`.  `$.ajax` issues the POST and returns
immediately; the synchronous `$('#saveLayout').modal('hide')` after the
`$.ajax(...).done(...)` expression therefore runs before the response
arrives.  On success the `success` callback and then the `done` callback
each alert and hide again; no failure handler is installed.  `ok` abstracts
the request outcome. -/
def save_layout (name : String) (ok : Bool) : List SaveEvent :=
  if name == "" then [SaveEvent.alertChooseName]
  else
    [SaveEvent.postIssued name, SaveEvent.modalHide, SaveEvent.requestResolved ok] ++
      (if ok then
        [SaveEvent.alertSaved name, SaveEvent.modalHide,
         SaveEvent.alertSaved name, SaveEvent.modalHide]
      else [])

/-- Outcome of the `load_layouts()` success callback: whether the
no-saved-layouts alert fired, and the option list the selection control was
filled with (placeholder first), if any. -/
structure LoadLayoutsUi where
  alerted : Bool
  options : Option (List String)
deriving DecidableEq

/-- `load_layouts()` success callback.  `none` models an `undefined`/`null`
response body (`layouts == undefined` is true for both); any actual array,
empty included, takes the else branch, which empties the control and
appends the disabled placeholder option and then one option per name. -/
def load_layouts (resp : Option (List String)) : LoadLayoutsUi :=
  match resp with
  | none => { alerted := true, options := none }
  | some layouts => { alerted := false, options := some ("Selecione seu Layout" :: layouts) }

/-- An interface is "unused" exactly when no "link"-type link touches it
(the condition computed inside `toggle_unused_interfaces`). -/
def unusedInterface (st : State) (n : Node) : Bool :=
  n.type == "interface" && !((get_node_links st n).any (fun l => l.type == "link"))

/-- A host is "disconnected" exactly when no link at all touches it (the
condition computed inside `toggle_disconnected_hosts`). -/
def disconnectedHost (st : State) (n : Node) : Bool :=
  n.type == "host" && ((get_node_links st n).length == 0)

/-- Agreement on every node field the layout code may write except the
`invisible` class: position, pin and `downlight` (plus identity). -/
def sameNodeView (a b : Node) : Prop :=
  a.name = b.name ∧ a.type = b.type ∧ a.x = b.x ∧ a.y = b.y ∧
    a.fx = b.fx ∧ a.fy = b.fy ∧ a.downlight = b.downlight

/-! ### Concrete fixtures used by the witness theorems -/

/-- A switch at the origin, not pinned. -/
def wSwitch : Node := { name := "s", type := "switch" }

/-- An interface owned by `wSwitch`. -/
def wIface : Node := { name := "i", type := "interface", x := 1 }

/-- A two-node topology: one switch owning one interface. -/
def wState : State :=
  { nodes := [wSwitch, wIface],
    links := [{ type := "interface", source := "s", target := "i" }] }

/-- An interface with no owning "interface"-type link (malformed graph). -/
def orphanState : State :=
  { nodes := [{ name := "i", type := "interface", x := 1, y := 2 }], links := [] }

/-- A pinned switch owning one unpinned and one pinned interface. -/
def w3State : State :=
  { nodes :=
      [{ name := "s", type := "switch", fx := some 0, fy := some 0 },
       { name := "i1", type := "interface", x := 1, y := 2 },
       { name := "i2", type := "interface", x := 3, y := 4, fx := some 30, fy := some 40 }],
    links :=
      [{ type := "interface", source := "s", target := "i1" },
       { type := "interface", source := "s", target := "i2" }] }

/-- A downlit pinned switch. -/
def w5Switch : Node :=
  { name := "s", type := "switch", x := 1, y := 2, fx := some 1, fy := some 2,
    downlight := true }

/-- A plain interface owned by `w5Switch`. -/
def w5Iface : Node := { name := "i", type := "interface", x := 3, y := 4 }

/-- A topology with visual state: a downlit pinned switch and an interface. -/
def w5State : State :=
  { nodes := [w5Switch, w5Iface],
    links := [{ type := "interface", source := "s", target := "i" }],
    hide_unused_interfaces := false,
    hide_disconnected_hosts := true }

/-- A layout mentioning only a node name that is not live in `w5State`. -/
def w6Layout : Layout :=
  { nodes := [("ghost",
      { name := "ghost", type := "host", x := 9, y := 9, fx := none, fy := none,
        downlight := true })],
    hide_unused_interfaces := true,
    hide_disconnected_hosts := false }

/-- A topology with one used and one unused interface: `i1` has a
"link"-type link, `i2` has none. -/
def w7State : State :=
  { nodes :=
      [{ name := "s", type := "switch" },
       { name := "i1", type := "interface", x := 1 },
       { name := "i2", type := "interface", x := 2 },
       { name := "h", type := "host", x := 3 }],
    links :=
      [{ type := "interface", source := "s", target := "i1" },
       { type := "interface", source := "s", target := "i2" },
       { type := "link", source := "i1", target := "h" }] }

/-! ### Toolkit lemmas about the state operations -/

theorem findNode_mem_name {ns : List Node} {nm : String} {n : Node}
    (h : findNode ns nm = some n) : n ∈ ns ∧ n.name = nm := by
  refine ⟨List.mem_of_find?_eq_some h, ?_⟩
  simpa using List.find?_some h

theorem findNode_map_of_name (G : Node → Node) (hG : ∀ m, (G m).name = m.name)
    (ns : List Node) (nm : String) :
    findNode (ns.map G) nm = (findNode ns nm).map G := by
  induction ns with
  | nil => rfl
  | cons a l ih =>
    by_cases h : a.name = nm
    · simp [findNode, List.find?_cons_of_pos, hG, h]
    · simp only [List.map_cons, findNode] at *
      rw [List.find?_cons_of_neg _ (by simpa [hG] using h),
        List.find?_cons_of_neg _ (by simpa using h)]
      exact ih

theorem findNode_updateNode_self {ns : List Node} {nm : String} {f : Node → Node}
    (hf : ∀ m, (f m).name = m.name) :
    findNode (updateNode ns nm f) nm = (findNode ns nm).map f := by
  have hG : ∀ m, ((fun n => if n.name == nm then f n else n) m).name = m.name := by
    intro m; by_cases h : m.name = nm <;> simp [h, hf]
  rw [updateNode, findNode_map_of_name _ hG]
  cases hfind : findNode ns nm with
  | none => rfl
  | some n =>
    have hn := (findNode_mem_name hfind).2
    simp [hn]

theorem findNode_updateNode_ne {ns : List Node} {nm nm' : String} {f : Node → Node}
    (hf : ∀ m, (f m).name = m.name) (h : nm' ≠ nm) :
    findNode (updateNode ns nm f) nm' = findNode ns nm' := by
  have hG : ∀ m, ((fun n => if n.name == nm then f n else n) m).name = m.name := by
    intro m; by_cases hh : m.name = nm <;> simp [hh, hf]
  rw [updateNode, findNode_map_of_name _ hG]
  cases hfind : findNode ns nm' with
  | none => rfl
  | some n =>
    have hn := (findNode_mem_name hfind).2
    have : ¬(n.name = nm) := by rw [hn]; exact h
    simp [this]

theorem mem_get_switch_interfaces {st : State} {d i : Node}
    (h : i ∈ get_switch_interfaces st d) : findNode st.nodes i.name = some i := by
  unfold get_switch_interfaces at h
  obtain ⟨l, -, hl⟩ := List.mem_filterMap.1 h
  have hn := (findNode_mem_name hl).2
  rw [hn]
  exact hl

theorem find_key_self (k : Node → String) {ns : List Node} {n : Node}
    (hnodup : (ns.map k).Nodup) (hmem : n ∈ ns) :
    ns.find? (fun m => k m == k n) = some n := by
  have hsome : (ns.find? (fun m => k m == k n)).isSome := by
    rw [List.find?_isSome]
    exact ⟨n, hmem, by simp⟩
  obtain ⟨m, hm⟩ := Option.isSome_iff_exists.1 hsome
  have h1 := List.mem_of_find?_eq_some hm
  have h2 : k m = k n := by simpa using List.find?_some hm
  have : m = n := List.inj_on_of_nodup_map hnodup h1 hmem h2
  rw [hm, this]

theorem findNode_self {ns : List Node} {n : Node}
    (hnodup : (ns.map Node.name).Nodup) (hmem : n ∈ ns) :
    findNode ns n.name = some n :=
  find_key_self Node.name hnodup hmem

theorem name_eq_of_mem_nodup {ns : List Node} {a b : Node}
    (hnodup : (ns.map Node.name).Nodup) (ha : a ∈ ns) (hb : b ∈ ns)
    (h : a.name = b.name) : a = b :=
  List.inj_on_of_nodup_map hnodup ha hb h

theorem nodeId_eq_of_mem_nodup {ns : List Node} {a b : Node}
    (hids : (ns.map nodeId).Nodup) (ha : a ∈ ns) (hb : b ∈ ns)
    (h : nodeId a = nodeId b) : a = b :=
  List.inj_on_of_nodup_map hids ha hb h

theorem map_eq_self_of {ns : List Node} {F : Node → Node}
    (h : ∀ n ∈ ns, F n = n) : ns.map F = ns := by
  rw [List.map_congr_left (g := id) h, List.map_id]

theorem setFirst_eq_self {ns : List Node} {p : Node → Bool} {f : Node → Node}
    (h : ∀ m ∈ ns, p m = true → f m = m) : setFirst ns p f = ns := by
  induction ns with
  | nil => rfl
  | cons a l ih =>
    show (if p a then f a :: l else a :: setFirst l p f) = a :: l
    by_cases hp : p a = true
    · rw [if_pos hp, h a (List.mem_cons_self a l) hp]
    · rw [if_neg hp, ih (fun m hm hpm => h m (List.mem_cons_of_mem a hm) hpm)]

theorem setFirst_eq_map {ns : List Node} {p : Node → Bool} {f : Node → Node}
    (h : ns.countP p ≤ 1) :
    setFirst ns p f = ns.map (fun n => if p n then f n else n) := by
  induction ns with
  | nil => rfl
  | cons a l ih =>
    rw [List.countP_cons] at h
    show (if p a then f a :: l else a :: setFirst l p f) = _
    by_cases hp : p a = true
    · have h0 : l.countP p = 0 := by rw [if_pos hp] at h; omega
      have hrest : l.map (fun n => if p n then f n else n) = l :=
        map_eq_self_of (fun n hn => by simp [List.countP_eq_zero.1 h0 n hn])
      simp [hp, hrest]
    · have h1 : l.countP p ≤ 1 := by rw [if_neg hp] at h; omega
      simp [hp, ih h1]

theorem countP_key_le_one (k : Node → String) {ns : List Node}
    (h : (ns.map k).Nodup) (s : String) :
    ns.countP (fun m => k m == s) ≤ 1 := by
  have h1 : ns.countP (fun m => k m == s) = (ns.map k).count s := by
    rw [List.count_eq_countP, List.countP_map]
    rfl
  rw [h1]
  exact List.nodup_iff_count_le_one.1 h s

theorem foldl_updateNode_not_mem (g : Node → Node)
    (hg : ∀ m, (g m).name = m.name) (L : List Node) (ns : List Node) (nm : String)
    (h : nm ∉ L.map Node.name) :
    findNode (L.foldl (fun acc i => updateNode acc i.name g) ns) nm = findNode ns nm := by
  induction L generalizing ns with
  | nil => rfl
  | cons a l ih =>
    simp only [List.map_cons, List.mem_cons, not_or] at h
    rw [List.foldl_cons, ih _ h.2, findNode_updateNode_ne hg h.1]

theorem foldl_updateNode_mem (g : Node → Node)
    (hg : ∀ m, (g m).name = m.name) (L : List Node) (ns : List Node)
    (hnodup : (L.map Node.name).Nodup) {i : Node} (hi : i ∈ L) :
    findNode (L.foldl (fun acc i => updateNode acc i.name g) ns) i.name =
      (findNode ns i.name).map g := by
  induction L generalizing ns with
  | nil => exact absurd hi (List.not_mem_nil i)
  | cons a l ih =>
    rw [List.map_cons, List.nodup_cons] at hnodup
    rw [List.foldl_cons]
    rcases List.mem_cons.1 hi with rfl | hmem
    · rw [foldl_updateNode_not_mem g hg l _ _ hnodup.1, findNode_updateNode_self hg]
    · have hne : i.name ≠ a.name := fun he =>
        hnodup.1 (he ▸ List.mem_map_of_mem Node.name hmem)
      rw [ih _ hnodup.2 hmem, findNode_updateNode_ne hg hne]

theorem dragInterfaceShift_name (dx dy : ℝ) (m : Node) :
    (dragInterfaceShift dx dy m).name = m.name := by
  unfold dragInterfaceShift
  cases h : m.fx <;> simp [h]

/-- The per-interface update of the switch drag, expressed through the
effective (pinned-or-current) position the code starts from. -/
theorem dragInterfaceShift_effective {n : Node} {b : ℝ × ℝ}
    (h : effectiveCenter n = some b) (dx dy : ℝ) :
    dragInterfaceShift dx dy n = { n with fx := some (b.1 + dx), fy := some (b.2 + dy) } := by
  cases hfx : n.fx with
  | none =>
    simp only [effectiveCenter, hfx] at h
    obtain rfl : (n.x, n.y) = b := Option.some.inj h
    simp [dragInterfaceShift, hfx]
  | some a =>
    cases hfy : n.fy with
    | none => simp [effectiveCenter, hfx, hfy] at h
    | some bb =>
      simp only [effectiveCenter, hfx, hfy] at h
      obtain rfl : (a, bb) = b := Option.some.inj h
      simp [dragInterfaceShift, hfx, hfy]

/-- The interface ring radius is 30 pixels: `size "switch" + 10`. -/
theorem distance_interface_eq : distance "interface" = 30 := by
  rw [distance, if_neg (by decide), if_pos (by decide), size, if_pos (by decide)]
  norm_num

@[simp] theorem nodeId_set_invisible (m : Node) (b : Bool) :
    nodeId { m with invisible := b } = nodeId m := rfl

@[simp] theorem set_invisible_idem (m : Node) (b : Bool) :
    ({ ({ m with invisible := b } : Node) with invisible := b } : Node)
      = { m with invisible := b } := rfl

/-- Folding the per-entry `setFirst` calls of a visibility toggle over a
node list on which every element id occurs at most once equals a single
map that sets `invisible` on exactly the nodes some enabled entry targets. -/
theorem toggleFold_eq_map (hide : Bool) (u : Node → Bool) (t : Node → String)
    (L : List Node) :
    ∀ ns : List Node, (∀ s : String, ns.countP (fun m => nodeId m == s) ≤ 1) →
    L.foldl (fun acc i => if u i then acc
        else setFirst acc (fun m => nodeId m == t i) (fun m => { m with invisible := hide })) ns
    = ns.map (fun n => if L.any (fun i => !u i && (nodeId n == t i))
        then { n with invisible := hide } else n) := by
  induction L with
  | nil =>
    intro ns _
    simp
  | cons i L' ih =>
    intro ns hcount
    rw [List.foldl_cons]
    by_cases hu : u i = true
    · rw [if_pos hu, ih ns hcount]
      apply List.map_congr_left
      intro n _
      simp [hu]
    · rw [if_neg hu, setFirst_eq_map (hcount (t i))]
      have hcount' : ∀ s : String,
          (ns.map (fun n => if nodeId n == t i then { n with invisible := hide } else n)).countP
            (fun m => nodeId m == s) ≤ 1 := by
        intro s
        rw [List.countP_map]
        have heq : ∀ n ∈ ns,
            ((fun m => nodeId m == s) ∘
              (fun n => if nodeId n == t i then { n with invisible := hide } else n)) n
            = (nodeId n == s) := by
          intro n _
          by_cases hmatch : (nodeId n == t i) = true <;>
            simp [Function.comp, hmatch]
        rw [List.countP_congr (fun x hx => by rw [heq x hx])]
        exact hcount s
      rw [ih _ hcount', List.map_map]
      apply List.map_congr_left
      intro n _
      simp only [Function.comp, List.any_cons]
      by_cases hmatch : (nodeId n == t i) = true <;>
        by_cases hany : (L'.any (fun i' => !u i' && (nodeId n == t i'))) = true <;>
          simp [hmatch, hany, hu]

theorem nodeId_of_interface {n : Node} (h : n.type = "interface") :
    nodeId n = "node-interface-" ++ fix_name n.name := by
  rw [nodeId, h]
  rfl

theorem nodeId_of_host {n : Node} (h : n.type = "host") :
    nodeId n = "node-host-" ++ fix_name n.name := by
  rw [nodeId, h]
  rfl

/-- `unusedInterface` only looks at the node's name and type and the state's
link set. -/
theorem unusedInterface_congr {st st' : State} (hlinks : st'.links = st.links)
    (n' n : Node) (hname : n'.name = n.name) (htype : n'.type = n.type) :
    unusedInterface st' n' = unusedInterface st n := by
  unfold unusedInterface get_node_links
  rw [hlinks, hname, htype]

/-- `disconnectedHost` only looks at the node's name and type and the
state's link set. -/
theorem disconnectedHost_congr {st st' : State} (hlinks : st'.links = st.links)
    (n' n : Node) (hname : n'.name = n.name) (htype : n'.type = n.type) :
    disconnectedHost st' n' = disconnectedHost st n := by
  unfold disconnectedHost get_node_links
  rw [hlinks, hname, htype]

/-- When every drawn id is unique, `toggle_unused_interfaces` is the map
that sets `invisible := hide` on exactly the unused interfaces. -/
theorem toggle_unused_spec (st : State) (hide : Bool)
    (hids : (st.nodes.map nodeId).Nodup) :
    (toggle_unused_interfaces st hide).nodes =
      st.nodes.map (fun n =>
        if unusedInterface st n then { n with invisible := hide } else n) := by
  have hfold : (toggle_unused_interfaces st hide).nodes =
      st.nodes.map (fun n => if (get_interfaces st).any (fun i =>
          !((get_node_links st i).any (fun l => l.type == "link")) &&
          (nodeId n == "node-interface-" ++ fix_name i.name))
        then { n with invisible := hide } else n) :=
    toggleFold_eq_map hide
      (fun i => (get_node_links st i).any (fun l => l.type == "link"))
      (fun i => "node-interface-" ++ fix_name i.name)
      (get_interfaces st) st.nodes
      (fun s => countP_key_le_one nodeId hids s)
  rw [hfold]
  apply List.map_congr_left
  intro n hn
  have hcond : ((get_interfaces st).any (fun i =>
      !((get_node_links st i).any (fun l => l.type == "link")) &&
      (nodeId n == "node-interface-" ++ fix_name i.name))) = unusedInterface st n := by
    by_cases hu : unusedInterface st n = true
    · have hsplit : (n.type == "interface") = true ∧
          (!((get_node_links st n).any (fun l => l.type == "link"))) = true := by
        have h := hu
        rw [unusedInterface, Bool.and_eq_true] at h
        exact h
      obtain ⟨h1, h2⟩ := hsplit
      rw [hu, List.any_eq_true]
      have hty : n.type = "interface" := by simpa using h1
      refine ⟨n, List.mem_filter.2 ⟨hn, h1⟩, ?_⟩
      rw [Bool.and_eq_true]
      exact ⟨h2, by rw [← nodeId_of_interface hty]; simp⟩
    · have hfalse : unusedInterface st n = false := Bool.eq_false_iff.2 hu
      rw [hfalse, List.any_eq_false]
      intro i hi hcontra
      rw [Bool.and_eq_true] at hcontra
      obtain ⟨h2, h3⟩ := hcontra
      have hityp : i.type = "interface" := by
        simpa using (List.mem_filter.1 hi).2
      have himem : i ∈ st.nodes := (List.mem_filter.1 hi).1
      have hid : nodeId n = nodeId i := by
        rw [nodeId_of_interface hityp]
        exact beq_iff_eq.mp h3
      have : n = i := nodeId_eq_of_mem_nodup hids hn himem hid
      subst this
      rw [unusedInterface, (by simpa using hityp : (n.type == "interface") = true),
        Bool.true_and] at hfalse
      rw [hfalse] at h2
      exact Bool.noConfusion h2
  rw [hcond]

/-- When every drawn id is unique, `toggle_disconnected_hosts` is the map
that sets `invisible := hide` on exactly the disconnected hosts. -/
theorem toggle_hosts_spec (st : State) (hide : Bool)
    (hids : (st.nodes.map nodeId).Nodup) :
    (toggle_disconnected_hosts st hide).nodes =
      st.nodes.map (fun n =>
        if disconnectedHost st n then { n with invisible := hide } else n) := by
  have hbody : (fun (acc : List Node) (host : Node) =>
        if (get_node_links st host).length == 0 then
          setFirst acc (fun m => nodeId m == "node-host-" ++ fix_name host.name)
            (fun m => { m with invisible := hide })
        else acc)
      = (fun (acc : List Node) (host : Node) =>
        if !((get_node_links st host).length == 0) then acc
        else setFirst acc (fun m => nodeId m == "node-host-" ++ fix_name host.name)
          (fun m => { m with invisible := hide })) := by
    funext acc host
    by_cases hc : ((get_node_links st host).length == 0) = true <;> simp [hc]
  have hfold : (toggle_disconnected_hosts st hide).nodes =
      st.nodes.map (fun n => if (get_hosts st).any (fun h =>
          !(!((get_node_links st h).length == 0)) &&
          (nodeId n == "node-host-" ++ fix_name h.name))
        then { n with invisible := hide } else n) := by
    show ((get_hosts st).foldl _ st.nodes) = _
    rw [hbody]
    exact toggleFold_eq_map hide
      (fun h => !((get_node_links st h).length == 0))
      (fun h => "node-host-" ++ fix_name h.name)
      (get_hosts st) st.nodes
      (fun s => countP_key_le_one nodeId hids s)
  rw [hfold]
  apply List.map_congr_left
  intro n hn
  have hcond : ((get_hosts st).any (fun h =>
      !(!((get_node_links st h).length == 0)) &&
      (nodeId n == "node-host-" ++ fix_name h.name))) = disconnectedHost st n := by
    by_cases hu : disconnectedHost st n = true
    · have hsplit : (n.type == "host") = true ∧
          ((get_node_links st n).length == 0) = true := by
        have h := hu
        rw [disconnectedHost, Bool.and_eq_true] at h
        exact h
      obtain ⟨h1, h2⟩ := hsplit
      rw [hu, List.any_eq_true]
      have hty : n.type = "host" := by simpa using h1
      refine ⟨n, List.mem_filter.2 ⟨hn, h1⟩, ?_⟩
      rw [Bool.and_eq_true, Bool.not_not]
      exact ⟨h2, by rw [← nodeId_of_host hty]; simp⟩
    · have hfalse : disconnectedHost st n = false := Bool.eq_false_iff.2 hu
      rw [hfalse, List.any_eq_false]
      intro i hi hcontra
      rw [Bool.and_eq_true, Bool.not_not] at hcontra
      obtain ⟨h2, h3⟩ := hcontra
      have hityp : i.type = "host" := by
        simpa using (List.mem_filter.1 hi).2
      have himem : i ∈ st.nodes := (List.mem_filter.1 hi).1
      have hid : nodeId n = nodeId i := by
        rw [nodeId_of_host hityp]
        exact beq_iff_eq.mp h3
      have : n = i := nodeId_eq_of_mem_nodup hids hn himem hid
      subst this
      rw [disconnectedHost, (by simpa using hityp : (n.type == "host") = true),
        Bool.true_and] at hfalse
      rw [hfalse] at h2
      exact Bool.noConfusion h2
  rw [hcond]

@[simp] theorem nodeId_set_pos (m : Node) (a b : ℝ) (c d : Option ℝ) :
    nodeId { m with x := a, y := b, fx := c, fy := d } = nodeId m := rfl

@[simp] theorem nodeId_set_downlight (m : Node) (b : Bool) :
    nodeId { m with downlight := b } = nodeId m := rfl

theorem foldl_fixed {α β : Type} (stepfn : β → α → β) (init : β) :
    ∀ L : List α, (∀ x ∈ L, stepfn init x = init) → L.foldl stepfn init = init := by
  intro L
  induction L with
  | nil => intro _; rfl
  | cons a l ih =>
    intro h
    rw [List.foldl_cons, h a (List.mem_cons_self a l),
      ih (fun x hx => h x (List.mem_cons_of_mem a hx))]

theorem foldl_prepend_map {α β : Type} (f : α → β) :
    ∀ (L : List α) (init : List β),
      L.foldl (fun acc x => f x :: acc) init = (L.map f).reverse ++ init := by
  intro L
  induction L with
  | nil => intro init; rfl
  | cons a l ih =>
    intro init
    rw [List.foldl_cons, ih, List.map_cons, List.reverse_cons, List.append_assoc]
    rfl

theorem lookup_eq_of_mem_nodup {β : Type} :
    ∀ {l : List (String × β)} {k : String} {v : β},
      (l.map Prod.fst).Nodup → (k, v) ∈ l → l.lookup k = some v := by
  intro l
  induction l with
  | nil => intro k v _ h; exact absurd h (List.not_mem_nil _)
  | cons p t ih =>
    intro k v hnodup hmem
    obtain ⟨k', v'⟩ := p
    rw [List.map_cons, List.nodup_cons] at hnodup
    rcases List.mem_cons.1 hmem with heq | hmemt
    · obtain ⟨rfl, rfl⟩ := Prod.mk.injEq .. ▸ heq
      simp [List.lookup]
    · have hk : k ≠ k' := fun he =>
        hnodup.1 (he ▸ (List.mem_map_of_mem Prod.fst hmemt : (k, v).fst ∈ t.map Prod.fst))
      have hbeq : (k == k') = false := by simpa using hk
      rw [List.lookup, hbeq]
      exact ih hnodup.2 hmemt

/-- With ids unique, reading the `downlight` class back from the DOM by a
node's own id yields that node's class. -/
theorem domDownlight_self (st : State) (hids : (st.nodes.map nodeId).Nodup)
    {node : Node} (hmem : node ∈ st.nodes) :
    domDownlight st (nodeId node) = node.downlight := by
  rw [domDownlight, find_key_self nodeId hids hmem]
  rfl

/-- With names unique, looking a live node's name up in the captured layout
yields exactly its captured record. -/
theorem get_current_layout_lookup (st : State)
    (hnames : (st.nodes.map Node.name).Nodup) {node : Node} (hmem : node ∈ st.nodes) :
    (get_current_layout st).nodes.lookup node.name = some (captureNode st node) := by
  have hfold : (get_current_layout st).nodes =
      (st.nodes.map (fun nd => (nd.name, captureNode st nd))).reverse ++ [] :=
    foldl_prepend_map _ st.nodes []
  rw [hfold, List.append_nil]
  apply lookup_eq_of_mem_nodup
  · rw [← List.map_reverse, List.map_map,
      (funext (fun nd => rfl) :
        (Prod.fst ∘ fun nd : Node => (nd.name, captureNode st nd)) = Node.name),
      List.map_reverse]
    exact List.nodup_reverse.2 hnames
  · exact List.mem_reverse.2 (List.mem_map_of_mem _ hmem)

theorem sameNodeView_refl (a : Node) : sameNodeView a a :=
  ⟨rfl, rfl, rfl, rfl, rfl, rfl, rfl⟩

theorem sameNodeView_trans {a b c : Node}
    (h1 : sameNodeView a b) (h2 : sameNodeView b c) : sameNodeView a c :=
  ⟨h1.1.trans h2.1, h1.2.1.trans h2.2.1, h1.2.2.1.trans h2.2.2.1,
    h1.2.2.2.1.trans h2.2.2.2.1, h1.2.2.2.2.1.trans h2.2.2.2.2.1,
    h1.2.2.2.2.2.1.trans h2.2.2.2.2.2.1, h1.2.2.2.2.2.2.trans h2.2.2.2.2.2.2⟩

/-- A visibility toggle only flips `invisible` classes: drawn ids are kept,
and any node found by name keeps its position, pin and `downlight`. -/
theorem toggle_unused_preserves_view (st1 : State) (hide : Bool)
    (hids1 : (st1.nodes.map nodeId).Nodup)
    {nm : String} {m : Node} (hfind : findNode st1.nodes nm = some m) :
    (toggle_unused_interfaces st1 hide).nodes.map nodeId = st1.nodes.map nodeId ∧
    ∃ m', findNode (toggle_unused_interfaces st1 hide).nodes nm = some m' ∧
      sameNodeView m' m := by
  have hspec := toggle_unused_spec st1 hide hids1
  have hF : ∀ k : Node, ((fun n =>
      if unusedInterface st1 n then { n with invisible := hide } else n) k).name = k.name := by
    intro k
    by_cases h : unusedInterface st1 k = true <;> simp [h]
  constructor
  · rw [hspec, List.map_map]
    apply List.map_congr_left
    intro k _
    by_cases h : unusedInterface st1 k = true <;> simp [Function.comp, h]
  · rw [hspec, findNode_map_of_name _ hF, hfind, Option.map_some']
    refine ⟨_, rfl, ?_⟩
    by_cases h : unusedInterface st1 m = true <;> simp [sameNodeView, h]

/-- Analogue of `toggle_unused_preserves_view` for the hosts toggle. -/
theorem toggle_hosts_preserves_view (st1 : State) (hide : Bool)
    (hids1 : (st1.nodes.map nodeId).Nodup)
    {nm : String} {m : Node} (hfind : findNode st1.nodes nm = some m) :
    (toggle_disconnected_hosts st1 hide).nodes.map nodeId = st1.nodes.map nodeId ∧
    ∃ m', findNode (toggle_disconnected_hosts st1 hide).nodes nm = some m' ∧
      sameNodeView m' m := by
  have hspec := toggle_hosts_spec st1 hide hids1
  have hF : ∀ k : Node, ((fun n =>
      if disconnectedHost st1 n then { n with invisible := hide } else n) k).name = k.name := by
    intro k
    by_cases h : disconnectedHost st1 k = true <;> simp [h]
  constructor
  · rw [hspec, List.map_map]
    apply List.map_congr_left
    intro k _
    by_cases h : disconnectedHost st1 k = true <;> simp [Function.comp, h]
  · rw [hspec, findNode_map_of_name _ hF, hfind, Option.map_some']
    refine ⟨_, rfl, ?_⟩
    by_cases h : disconnectedHost st1 m = true <;> simp [sameNodeView, h]

theorem clickUnused_preserves_view (st0 : State)
    (hids0 : (st0.nodes.map nodeId).Nodup)
    {nm : String} {m : Node} (hfind : findNode st0.nodes nm = some m) :
    (clickUnusedCheckbox st0).nodes.map nodeId = st0.nodes.map nodeId ∧
    ∃ m', findNode (clickUnusedCheckbox st0).nodes nm = some m' ∧ sameNodeView m' m :=
  toggle_unused_preserves_view
    { st0 with hide_unused_interfaces := !st0.hide_unused_interfaces }
    (!st0.hide_unused_interfaces) hids0 hfind

theorem clickHosts_preserves_view (st0 : State)
    (hids0 : (st0.nodes.map nodeId).Nodup)
    {nm : String} {m : Node} (hfind : findNode st0.nodes nm = some m) :
    (clickHostsCheckbox st0).nodes.map nodeId = st0.nodes.map nodeId ∧
    ∃ m', findNode (clickHostsCheckbox st0).nodes nm = some m' ∧ sameNodeView m' m :=
  toggle_hosts_preserves_view
    { st0 with hide_disconnected_hosts := !st0.hide_disconnected_hosts }
    (!st0.hide_disconnected_hosts) hids0 hfind

theorem click_branch_unused (stx : State) (c : Bool)
    (hidsx : (stx.nodes.map nodeId).Nodup)
    {nm : String} {m : Node} (hfind : findNode stx.nodes nm = some m) :
    (if c then clickUnusedCheckbox stx else stx).nodes.map nodeId
        = stx.nodes.map nodeId ∧
    ∃ m', findNode (if c then clickUnusedCheckbox stx else stx).nodes nm = some m' ∧
      sameNodeView m' m := by
  cases c
  · exact ⟨rfl, m, hfind, sameNodeView_refl m⟩
  · exact clickUnused_preserves_view stx hidsx hfind

theorem click_branch_hosts (stx : State) (c : Bool)
    (hidsx : (stx.nodes.map nodeId).Nodup)
    {nm : String} {m : Node} (hfind : findNode stx.nodes nm = some m) :
    (if c then clickHostsCheckbox stx else stx).nodes.map nodeId
        = stx.nodes.map nodeId ∧
    ∃ m', findNode (if c then clickHostsCheckbox stx else stx).nodes nm = some m' ∧
      sameNodeView m' m := by
  cases c
  · exact ⟨rfl, m, hfind, sameNodeView_refl m⟩
  · exact clickHosts_preserves_view stx hidsx hfind

/-- The node-restoring fold of `restore_layout` does not touch a node whose
name the layout does not know: ids are kept, and the node is still found
by name, completely unchanged. -/
theorem restore_fold_preserves (st : State) (layout : Layout) {n : Node}
    (hids : (st.nodes.map nodeId).Nodup)
    (habs : layout.nodes.lookup n.name = none)
    (hmemn : n ∈ st.nodes) :
    ∀ L : List Node, (∀ x ∈ L, x ∈ st.nodes) →
    ∀ ns : List Node, ns.map nodeId = st.nodes.map nodeId →
      findNode ns n.name = some n →
      (L.foldl (fun acc node =>
        match layout.nodes.lookup node.name with
        | none => acc
        | some r =>
          setFirst (updateNode acc node.name
              (fun m => { m with x := r.x, y := r.y, fx := r.fx, fy := r.fy }))
            (fun m => nodeId m == nodeId node)
            (fun m => { m with downlight := r.downlight })) ns).map nodeId
          = st.nodes.map nodeId ∧
      findNode (L.foldl (fun acc node =>
        match layout.nodes.lookup node.name with
        | none => acc
        | some r =>
          setFirst (updateNode acc node.name
              (fun m => { m with x := r.x, y := r.y, fx := r.fx, fy := r.fy }))
            (fun m => nodeId m == nodeId node)
            (fun m => { m with downlight := r.downlight })) ns) n.name = some n := by
  intro L
  induction L with
  | nil => exact fun _ ns hshape hfind => ⟨hshape, hfind⟩
  | cons node L' ih =>
    intro hsub ns hshape hfind
    rw [List.foldl_cons]
    cases hlook : layout.nodes.lookup node.name with
    | none => exact ih (fun x hx => hsub x (List.mem_cons_of_mem node hx)) ns hshape hfind
    | some r =>
      have hmem_node : node ∈ st.nodes := hsub node (List.mem_cons_self node L')
      have hnodename : node.name ≠ n.name := by
        intro he
        rw [he, habs] at hlook
        exact Option.noConfusion hlook
      have hshape1 : (updateNode ns node.name
          (fun m => { m with x := r.x, y := r.y, fx := r.fx, fy := r.fy })).map nodeId
          = st.nodes.map nodeId := by
        rw [← hshape, updateNode, List.map_map]
        apply List.map_congr_left
        intro k _
        by_cases h : (k.name == node.name) = true <;> simp [Function.comp, h]
      have hfind1 : findNode (updateNode ns node.name
          (fun m => { m with x := r.x, y := r.y, fx := r.fx, fy := r.fy })) n.name
          = some n := by
        rw [findNode_updateNode_ne (f := fun m =>
            { m with x := r.x, y := r.y, fx := r.fx, fy := r.fy })
          (fun k => rfl) (fun he => hnodename he.symm)]
        exact hfind
      have hidsns1 : ((updateNode ns node.name
          (fun m => { m with x := r.x, y := r.y, fx := r.fx, fy := r.fy })).map nodeId).Nodup := by
        rw [hshape1]
        exact hids
      have hsf : setFirst (updateNode ns node.name
            (fun m => { m with x := r.x, y := r.y, fx := r.fx, fy := r.fy }))
          (fun m => nodeId m == nodeId node)
          (fun m => { m with downlight := r.downlight })
          = (updateNode ns node.name
            (fun m => { m with x := r.x, y := r.y, fx := r.fx, fy := r.fy })).map
            (fun m => if nodeId m == nodeId node
              then { m with downlight := r.downlight } else m) :=
        setFirst_eq_map (countP_key_le_one nodeId hidsns1 (nodeId node))
      have hG : ∀ k : Node, ((fun m => if nodeId m == nodeId node
          then { m with downlight := r.downlight } else m) k).name = k.name := by
        intro k
        by_cases h : (nodeId k == nodeId node) = true <;> simp [h]
      have hshape2 : (setFirst (updateNode ns node.name
            (fun m => { m with x := r.x, y := r.y, fx := r.fx, fy := r.fy }))
          (fun m => nodeId m == nodeId node)
          (fun m => { m with downlight := r.downlight })).map nodeId
          = st.nodes.map nodeId := by
        rw [hsf, List.map_map, ← hshape1]
        apply List.map_congr_left
        intro k _
        by_cases h : (nodeId k == nodeId node) = true <;> simp [Function.comp, h]
      have hidne : (nodeId n == nodeId node) = false := by
        have : nodeId n ≠ nodeId node := by
          intro he
          exact hnodename (congrArg Node.name
            (nodeId_eq_of_mem_nodup hids hmemn hmem_node he)).symm
        simpa using this
      have hfind2 : findNode (setFirst (updateNode ns node.name
            (fun m => { m with x := r.x, y := r.y, fx := r.fx, fy := r.fy }))
          (fun m => nodeId m == nodeId node)
          (fun m => { m with downlight := r.downlight })) n.name = some n := by
        rw [hsf, findNode_map_of_name _ hG, hfind1, Option.map_some', hidne]
        rfl
      exact ih (fun x hx => hsub x (List.mem_cons_of_mem node hx)) _ hshape2 hfind2

/-! ### Lemmas about the name escaping -/

theorem fixChars_eq_nil {r : List Char} : fixChars r = [] ↔ r = [] := by
  cases r with
  | nil => simp [fixChars]
  | cons c rest => by_cases h : c = ':' <;> simp [fixChars, h]

theorem unfixChars_fixChars {r : List Char} (h : '_' ∉ r) :
    unfixChars (fixChars r) = r := by
  induction r with
  | nil => rfl
  | cons c rest ih =>
    have hc : c ≠ '_' := fun hc => h (hc ▸ List.mem_cons_self c rest)
    have hrest : '_' ∉ rest := fun hm => h (List.mem_cons_of_mem c hm)
    by_cases hcol : c = ':'
    · subst hcol
      rw [show fixChars (':' :: rest) = '_' :: '_' :: fixChars rest by simp [fixChars]]
      cases hfix : fixChars rest with
      | nil =>
        rw [fixChars_eq_nil.1 hfix]
        rfl
      | cons b t =>
        rw [show unfixChars ('_' :: '_' :: b :: t) = ':' :: unfixChars (b :: t) by
            simp [unfixChars]]
        rw [← hfix, ih hrest]
    · rw [show fixChars (c :: rest) = c :: fixChars rest by simp [fixChars, hcol]]
      cases hfix : fixChars rest with
      | nil =>
        rw [fixChars_eq_nil.1 hfix]
        rfl
      | cons b t =>
        rw [show unfixChars (c :: b :: t) = c :: unfixChars (b :: t) by
            simp [unfixChars, hc]]
        rw [← hfix, ih hrest]

/-! ### C4 -/

/-- C4, counterexample: the escaping is not reversible on every name; a name
that already contains a double underscore comes back changed
(`unfix_name (fix_name "a__b") = "a:b"`). -/
theorem c4_roundtrip_counterexample : unfix_name (fix_name "a__b") ≠ "a__b" := by
  decide

/-- C4, amended: for every node name that contains no underscore character,
`unfix_name` is a left inverse of `fix_name`. -/
theorem c4_fix_unfix_roundtrip (s : String) (h : '_' ∉ s.data) :
    unfix_name (fix_name s) = s := by
  have h1 : unfix_name (fix_name s) = ⟨unfixChars (fixChars s.data)⟩ := rfl
  rw [h1, unfixChars_fixChars h]

theorem c4_fix_unfix_roundtrip_witness : unfix_name (fix_name "00:00:00:01") = "00:00:00:01" :=
  c4_fix_unfix_roundtrip "00:00:00:01" (by decide)

/-! ### C8 -/

/-- C8, counterexample: in the save trace for a non-empty name the dialog
hide at index 1 precedes the request resolution at index 2 — the hide is
the synchronous statement after `$.ajax`, so it does not wait for the POST. -/
theorem c8_hide_precedes_resolution_counterexample :
    ∃ i j : ℕ, i < j ∧ (save_layout "A" true)[i]? = some SaveEvent.modalHide ∧
      (save_layout "A" true)[j]? = some (SaveEvent.requestResolved true) :=
  ⟨1, 2, by omega, rfl, rfl⟩

/-- C8, amended: for every non-empty layout name the save dialog is hidden
immediately after the POST is issued and before it resolves; on success it
is hidden again by the `success` and `done` callbacks. -/
theorem c8_dialog_hidden_before_request_resolves (name : String) (ok : Bool)
    (h : name ≠ "") :
    (save_layout name ok)[0]? = some (SaveEvent.postIssued name) ∧
    (save_layout name ok)[1]? = some SaveEvent.modalHide ∧
    (save_layout name ok)[2]? = some (SaveEvent.requestResolved ok) ∧
    (ok = true → (save_layout name ok)[4]? = some SaveEvent.modalHide ∧
      (save_layout name ok)[6]? = some SaveEvent.modalHide) := by
  have hb : ¬((name == "") = true) := by simp [h]
  unfold save_layout
  rw [if_neg hb]
  cases ok <;> exact ⟨rfl, rfl, rfl, fun hok => by simp_all⟩

theorem c8_dialog_hidden_witness :
    (save_layout "mylayout" true)[0]? = some (SaveEvent.postIssued "mylayout") ∧
    (save_layout "mylayout" true)[1]? = some SaveEvent.modalHide ∧
    (save_layout "mylayout" true)[2]? = some (SaveEvent.requestResolved true) ∧
    (true = true → (save_layout "mylayout" true)[4]? = some SaveEvent.modalHide ∧
      (save_layout "mylayout" true)[6]? = some SaveEvent.modalHide) :=
  c8_dialog_hidden_before_request_resolves "mylayout" true (by decide)

/-! ### C9 -/

/-- C9, counterexample: an empty array response produces no notice — in JS
`[] == undefined` is false, so the else branch runs and fills the control
with just the placeholder option. -/
theorem c9_empty_array_no_notice_counterexample :
    (load_layouts (some [])).alerted = false ∧
    (load_layouts (some [])).options = some ["Selecione seu Layout"] :=
  ⟨rfl, rfl⟩

/-- C9, amended: the no-saved-layouts notice fires exactly for an absent
(`undefined`/`null`) response; any array response, empty included, instead
populates the selection control with the placeholder followed by the names. -/
theorem c9_notice_only_for_absent_response :
    (load_layouts none).alerted = true ∧ (load_layouts none).options = none ∧
    ∀ l : List String, (load_layouts (some l)).alerted = false ∧
      (load_layouts (some l)).options = some ("Selecione seu Layout" :: l) :=
  ⟨rfl, rfl, fun _ => ⟨rfl, rfl⟩⟩

/-! ### C2 -/

/-- C2, counterexample: dragging the interface of `orphanState` (whose owner
is unresolvable) does not produce any new state — the handler dereferences
the `null` owner and throws, so it never pins the node at the pointer. -/
theorem c2_orphan_drag_counterexample :
    ¬∃ st', dragged orphanState "i" 7 8 = some st' := by
  intro hex
  obtain ⟨st', hst⟩ := hex
  have h0 : dragged orphanState "i" 7 8 = none := rfl
  rw [h0] at hst
  exact Option.noConfusion hst

/-- C2, amended: a drag on an interface whose owner cannot be resolved
(no "interface"-type link targets it) makes the handler throw on the `null`
owner dereference (modelled as `none`); it does not fall back to
unconstrained pinning. -/
theorem c2_orphan_drag_throws (st : State) (dname : String) (d : Node) (px py : ℝ)
    (hd : findNode st.nodes dname = some d)
    (hty : d.type = "interface")
    (hown : get_interface_owner st d = none) :
    dragged st dname px py = none := by
  simp only [dragged, hd, hty, hown]
  rw [if_neg (by decide), if_pos (by decide)]

theorem c2_orphan_drag_throws_witness : dragged orphanState "i" 9 10 = none :=
  c2_orphan_drag_throws orphanState "i"
    { name := "i", type := "interface", x := 1, y := 2 } 9 10 rfl rfl rfl

/-! ### C10 -/

/-- C10: double-click release on an interface clears only that interface's
own pin: every node with a different name is still present unchanged, and
every node carrying the released name keeps its `x`, `y` and all other
fields and merely has `fx`, `fy` set to null — no re-projection happens. -/
theorem c10_release_interface_only_own_pin (st : State) (d : Node)
    (hty : d.type = "interface") :
    (∀ n ∈ st.nodes, n.name ≠ d.name → n ∈ (release_node st d).nodes) ∧
    (∀ n' ∈ (release_node st d).nodes, n'.name = d.name →
      ∃ n, n ∈ st.nodes ∧ n' = { n with fx := none, fy := none }) := by
  have hns : (release_node st d).nodes =
      updateNode st.nodes d.name (fun n => { n with fx := none, fy := none }) := by
    unfold release_node
    rw [hty, if_neg (by decide)]
  rw [hns]
  constructor
  · intro n hn hne
    unfold updateNode
    exact List.mem_map.2 ⟨n, hn, by simp [hne]⟩
  · intro n' hn' hname
    obtain ⟨n, hn, hFn⟩ := List.mem_map.1 hn'
    by_cases h : n.name = d.name
    · exact ⟨n, hn, by rw [← hFn]; simp [h]⟩
    · rw [← hFn] at hname
      simp [h] at hname

/-! ### C1 -/

/-- C1: after any drag of an interface whose owner switch resolves, the
Euclidean distance from the interface's new pinned position to the owner's
current position (its pin when pinned, else its simulated position) is
exactly the configured interface ring radius `distance "interface"`, for
every pointer position. -/
theorem c1_interface_drag_lands_on_ring
    (st : State) (dname : String) (d owner : Node) (px py cx cy : ℝ)
    (hd : findNode st.nodes dname = some d)
    (hty : d.type = "interface")
    (hown : get_interface_owner st d = some owner)
    (hc : effectiveCenter owner = some (cx, cy)) :
    ∃ st' nx ny, dragged st dname px py = some st' ∧
      findNode st'.nodes dname = some { d with fx := some nx, fy := some ny } ∧
      Real.sqrt ((nx - cx) ^ 2 + (ny - cy) ^ 2) = distance "interface" := by
  have hdrag : dragged st dname px py = some { st with
      nodes := updateNode st.nodes dname
        (fun n => { n with fx := some (radius_positioning cx cy px py).1,
                           fy := some (radius_positioning cx cy px py).2 }) } := by
    simp only [dragged, hd, hty, hown, hc]
    rw [if_neg (by decide), if_pos (by decide)]
  refine ⟨_, (radius_positioning cx cy px py).1, (radius_positioning cx cy px py).2,
    hdrag, ?_, ?_⟩
  · show findNode (updateNode st.nodes dname _) dname = _
    rw [findNode_updateNode_self (f := fun n =>
        { n with fx := some (radius_positioning cx cy px py).1,
                 fy := some (radius_positioning cx cy px py).2 }) (fun m => rfl), hd]
    rfl
  · have hrp1 : (radius_positioning cx cy px py).1 =
        cx + Real.cos (atan2 (py - cy) (px - cx)) * distance "interface" := rfl
    have hrp2 : (radius_positioning cx cy px py).2 =
        cy + Real.sin (atan2 (py - cy) (px - cx)) * distance "interface" := rfl
    rw [hrp1, hrp2, distance_interface_eq]
    have harg : (cx + Real.cos (atan2 (py - cy) (px - cx)) * 30 - cx) ^ 2 +
        (cy + Real.sin (atan2 (py - cy) (px - cx)) * 30 - cy) ^ 2 = 30 ^ 2 := by
      have h1 := Real.cos_sq_add_sin_sq (atan2 (py - cy) (px - cx))
      calc (cx + Real.cos (atan2 (py - cy) (px - cx)) * 30 - cx) ^ 2 +
          (cy + Real.sin (atan2 (py - cy) (px - cx)) * 30 - cy) ^ 2
          = (Real.cos (atan2 (py - cy) (px - cx)) ^ 2 +
              Real.sin (atan2 (py - cy) (px - cx)) ^ 2) * 30 ^ 2 := by ring
        _ = 30 ^ 2 := by rw [h1]; ring
    rw [harg, Real.sqrt_sq (by norm_num : (0:ℝ) ≤ 30)]

theorem c1_interface_drag_lands_on_ring_witness :
    ∃ st' nx ny, dragged wState "i" 5 0 = some st' ∧
      findNode st'.nodes "i" = some { wIface with fx := some nx, fy := some ny } ∧
      Real.sqrt ((nx - 0) ^ 2 + (ny - 0) ^ 2) = distance "interface" :=
  c1_interface_drag_lands_on_ring wState "i" wIface wSwitch 5 0 0 0 rfl rfl rfl rfl

/-! ### C3 -/

/-- C3: a drag of a pinned switch to pointer `(px, py)` translates the pin
of every interface it owns by exactly the switch pin's delta
`(px - ofx, py - ofy)` — an interface not yet pinned is first pinned at its
current `(x, y)` — and therefore preserves all pairwise offsets among the
owned interfaces' resulting pins. -/
theorem c3_switch_drag_rigid_translation
    (st : State) (sname : String) (s : Node) (px py ofx ofy : ℝ)
    (hs : findNode st.nodes sname = some s)
    (hty : s.type = "switch")
    (hfx : s.fx = some ofx) (hfy : s.fy = some ofy)
    (hnodup : ((get_switch_interfaces st s).map Node.name).Nodup)
    (hself : sname ∉ (get_switch_interfaces st s).map Node.name) :
    ∃ st', dragged st sname px py = some st' ∧
      (∀ i ∈ get_switch_interfaces st s, ∀ b : ℝ × ℝ, effectiveCenter i = some b →
        findNode st'.nodes i.name =
          some { i with fx := some (b.1 + (px - ofx)), fy := some (b.2 + (py - ofy)) }) ∧
      (∀ i ∈ get_switch_interfaces st s, ∀ j ∈ get_switch_interfaces st s,
        ∀ bi bj : ℝ × ℝ, effectiveCenter i = some bi → effectiveCenter j = some bj →
        ∃ a b c e : ℝ,
          (findNode st'.nodes i.name).map Node.fx = some (some a) ∧
          (findNode st'.nodes i.name).map Node.fy = some (some b) ∧
          (findNode st'.nodes j.name).map Node.fx = some (some c) ∧
          (findNode st'.nodes j.name).map Node.fy = some (some e) ∧
          a - c = bi.1 - bj.1 ∧ b - e = bi.2 - bj.2) := by
  have hdrag : dragged st sname px py = some { st with
      nodes := (get_switch_interfaces st s).foldl
        (fun acc i => updateNode acc i.name (dragInterfaceShift (px - ofx) (py - ofy)))
        (updateNode st.nodes sname
          (fun n => { n with old_fx := n.fx, old_fy := n.fy, fx := some px, fy := some py })) } := by
    simp only [dragged, hs, hty, hfx, hfy]
    rw [if_pos (by decide)]
  have hmain : ∀ i ∈ get_switch_interfaces st s, ∀ b : ℝ × ℝ, effectiveCenter i = some b →
      findNode ((get_switch_interfaces st s).foldl
        (fun acc i => updateNode acc i.name (dragInterfaceShift (px - ofx) (py - ofy)))
        (updateNode st.nodes sname
          (fun n => { n with old_fx := n.fx, old_fy := n.fy, fx := some px, fy := some py }))) i.name =
      some { i with fx := some (b.1 + (px - ofx)), fy := some (b.2 + (py - ofy)) } := by
    intro i hi b hb
    have hne : i.name ≠ sname := fun he => hself (he ▸ List.mem_map_of_mem Node.name hi)
    rw [foldl_updateNode_mem (dragInterfaceShift (px - ofx) (py - ofy))
        (dragInterfaceShift_name _ _) (get_switch_interfaces st s) _ hnodup hi,
      findNode_updateNode_ne (f := fun n =>
        { n with old_fx := n.fx, old_fy := n.fy, fx := some px, fy := some py })
        (fun m => rfl) hne,
      mem_get_switch_interfaces hi, Option.map_some']
    rw [dragInterfaceShift_effective hb]
  refine ⟨_, hdrag, hmain, ?_⟩
  intro i hi j hj bi bj hbi hbj
  refine ⟨bi.1 + (px - ofx), bi.2 + (py - ofy), bj.1 + (px - ofx), bj.2 + (py - ofy),
    ?_, ?_, ?_, ?_, by ring, by ring⟩ <;>
    rw [show ({ st with
      nodes := (get_switch_interfaces st s).foldl
        (fun acc i => updateNode acc i.name (dragInterfaceShift (px - ofx) (py - ofy)))
        (updateNode st.nodes sname
          (fun n => { n with old_fx := n.fx, old_fy := n.fy, fx := some px, fy := some py })) } : State).nodes =
      (get_switch_interfaces st s).foldl
        (fun acc i => updateNode acc i.name (dragInterfaceShift (px - ofx) (py - ofy)))
        (updateNode st.nodes sname
          (fun n => { n with old_fx := n.fx, old_fy := n.fy, fx := some px, fy := some py })) from rfl]
  · rw [hmain i hi bi hbi]; rfl
  · rw [hmain i hi bi hbi]; rfl
  · rw [hmain j hj bj hbj]; rfl
  · rw [hmain j hj bj hbj]; rfl

theorem c3_switch_drag_rigid_translation_witness :
    ∃ st', dragged w3State "s" 10 20 = some st' ∧
      (∀ i ∈ get_switch_interfaces w3State
          { name := "s", type := "switch", fx := some 0, fy := some 0 },
        ∀ b : ℝ × ℝ, effectiveCenter i = some b →
        findNode st'.nodes i.name =
          some { i with fx := some (b.1 + (10 - 0)), fy := some (b.2 + (20 - 0)) }) ∧
      (∀ i ∈ get_switch_interfaces w3State
          { name := "s", type := "switch", fx := some 0, fy := some 0 },
        ∀ j ∈ get_switch_interfaces w3State
          { name := "s", type := "switch", fx := some 0, fy := some 0 },
        ∀ bi bj : ℝ × ℝ, effectiveCenter i = some bi → effectiveCenter j = some bj →
        ∃ a b c e : ℝ,
          (findNode st'.nodes i.name).map Node.fx = some (some a) ∧
          (findNode st'.nodes i.name).map Node.fy = some (some b) ∧
          (findNode st'.nodes j.name).map Node.fx = some (some c) ∧
          (findNode st'.nodes j.name).map Node.fy = some (some e) ∧
          a - c = bi.1 - bj.1 ∧ b - e = bi.2 - bj.2) :=
  c3_switch_drag_rigid_translation w3State "s"
    { name := "s", type := "switch", fx := some 0, fy := some 0 } 10 20 0 0
    rfl rfl rfl rfl (by decide) (by decide)

/-! ### C5 -/

/-- C5: with unique names and unique drawn ids, capturing the current layout
and immediately restoring that same captured layout is a no-op on the whole
state: every node keeps its x, y, fx, fy and downlight, and neither
visibility checkbox is clicked. -/
theorem c5_capture_restore_roundtrip (st : State)
    (hnames : (st.nodes.map Node.name).Nodup)
    (hids : (st.nodes.map nodeId).Nodup) :
    restore_layout st (get_current_layout st) = st := by
  have hmain : ∀ (st0 : State) (ns : List Node), ns = st0.nodes →
      (let st1 : State := { st0 with nodes := ns };
       let st2 := if (get_current_layout st0).hide_unused_interfaces !=
           st1.hide_unused_interfaces
         then clickUnusedCheckbox st1 else st1;
       if (get_current_layout st0).hide_disconnected_hosts !=
           st2.hide_disconnected_hosts
         then clickHostsCheckbox st2 else st2) = st0 := by
    intro st0 ns hns
    subst hns
    obtain ⟨ns0, ls0, hu0, hh0⟩ := st0
    cases hu0 <;> cases hh0 <;> rfl
  have hstep : ∀ node ∈ st.nodes,
      (match (get_current_layout st).nodes.lookup node.name with
        | none => st.nodes
        | some r =>
          setFirst (updateNode st.nodes node.name
              (fun m => { m with x := r.x, y := r.y, fx := r.fx, fy := r.fy }))
            (fun m => nodeId m == nodeId node)
            (fun m => { m with downlight := r.downlight })) = st.nodes := by
    intro node hmem
    rw [get_current_layout_lookup st hnames hmem]
    have hupd : updateNode st.nodes node.name
        (fun m => { m with x := node.x, y := node.y, fx := node.fx, fy := node.fy })
        = st.nodes := by
      apply map_eq_self_of
      intro m hm
      by_cases h : m.name = node.name
      · have hmn : m = node := name_eq_of_mem_nodup hnames hm hmem h
        subst hmn
        rw [if_pos (beq_self_eq_true m.name)]
      · rw [if_neg (by simpa using h)]
    show setFirst (updateNode st.nodes node.name
        (fun m => { m with x := node.x, y := node.y, fx := node.fx, fy := node.fy }))
      (fun m => nodeId m == nodeId node)
      (fun m => { m with downlight := domDownlight st (nodeId node) }) = st.nodes
    rw [hupd]
    apply setFirst_eq_self
    intro m hm hp
    have hmn : m = node := nodeId_eq_of_mem_nodup hids hm hmem (beq_iff_eq.mp hp)
    subst hmn
    rw [domDownlight_self st hids hm]
  have hfold := foldl_fixed (fun acc node =>
      match (get_current_layout st).nodes.lookup node.name with
      | none => acc
      | some r =>
        setFirst (updateNode acc node.name
            (fun m => { m with x := r.x, y := r.y, fx := r.fx, fy := r.fy }))
          (fun m => nodeId m == nodeId node)
          (fun m => { m with downlight := r.downlight })) st.nodes st.nodes hstep
  exact hmain st _ hfold

theorem c5_capture_restore_roundtrip_witness :
    restore_layout w5State (get_current_layout w5State) = w5State :=
  c5_capture_restore_roundtrip w5State (by decide) (by decide)

/-! ### C6 -/

/-- C6: loading a layout is a partial merge — a live node whose name is
absent from the layout's nodes map keeps its x, y, fx, fy and downlight
completely unchanged through `restore_layout` (only its `invisible` class
may change, via the checkbox reconciliation). -/
theorem c6_restore_absent_node_untouched (st : State) (layout : Layout) (n : Node)
    (hnames : (st.nodes.map Node.name).Nodup)
    (hids : (st.nodes.map nodeId).Nodup)
    (hmem : n ∈ st.nodes)
    (habs : layout.nodes.lookup n.name = none) :
    ∃ n', findNode (restore_layout st layout).nodes n.name = some n' ∧
      sameNodeView n' n := by
  obtain ⟨hshape_res, hfind_res⟩ := restore_fold_preserves st layout hids habs hmem
    st.nodes (fun x hx => hx) st.nodes rfl (findNode_self hnames hmem)
  have hstage : ∀ st1 : State, st1.nodes.map nodeId = st.nodes.map nodeId →
      findNode st1.nodes n.name = some n →
      ∃ n', findNode (if layout.hide_disconnected_hosts !=
            (if layout.hide_unused_interfaces != st1.hide_unused_interfaces
              then clickUnusedCheckbox st1 else st1).hide_disconnected_hosts
          then clickHostsCheckbox
            (if layout.hide_unused_interfaces != st1.hide_unused_interfaces
              then clickUnusedCheckbox st1 else st1)
          else (if layout.hide_unused_interfaces != st1.hide_unused_interfaces
              then clickUnusedCheckbox st1 else st1)).nodes n.name = some n' ∧
        sameNodeView n' n := by
    intro st1 hshape1 hfind1
    obtain ⟨hshapeA, m1, hfindA, hviewA⟩ := click_branch_unused st1
      (layout.hide_unused_interfaces != st1.hide_unused_interfaces)
      (by rw [hshape1]; exact hids) hfind1
    obtain ⟨hshapeB, m2, hfindB, hviewB⟩ := click_branch_hosts
      (if layout.hide_unused_interfaces != st1.hide_unused_interfaces
        then clickUnusedCheckbox st1 else st1)
      (layout.hide_disconnected_hosts !=
        (if layout.hide_unused_interfaces != st1.hide_unused_interfaces
          then clickUnusedCheckbox st1 else st1).hide_disconnected_hosts)
      (by rw [hshapeA, hshape1]; exact hids) hfindA
    exact ⟨m2, hfindB, sameNodeView_trans hviewB hviewA⟩
  exact hstage { st with nodes := st.nodes.foldl (fun acc node =>
      match layout.nodes.lookup node.name with
      | none => acc
      | some r =>
        setFirst (updateNode acc node.name
            (fun m => { m with x := r.x, y := r.y, fx := r.fx, fy := r.fy }))
          (fun m => nodeId m == nodeId node)
          (fun m => { m with downlight := r.downlight })) st.nodes }
    hshape_res hfind_res

theorem c6_restore_absent_node_witness :
    ∃ n', findNode (restore_layout w5State w6Layout).nodes "s" = some n' ∧
      sameNodeView n' w5Switch :=
  c6_restore_absent_node_untouched w5State w6Layout w5Switch
    (by decide) (by decide) (List.mem_cons_self _ _) rfl

/-! ### C7 -/

/-- C7: with all drawn ids distinct, toggling "hide unused interfaces" on
marks invisible exactly the interfaces with zero "link"-type links (all
other nodes are untouched), and toggling it off again with the link set
unchanged restores visibility of exactly that same set; the link set itself
is never modified. -/
theorem c7_hide_unused_interfaces_exact (st : State)
    (hids : (st.nodes.map nodeId).Nodup) :
    (toggle_unused_interfaces st true).nodes =
      st.nodes.map (fun n =>
        if unusedInterface st n then { n with invisible := true } else n) ∧
    (toggle_unused_interfaces (toggle_unused_interfaces st true) false).nodes =
      st.nodes.map (fun n =>
        if unusedInterface st n then { n with invisible := false } else n) ∧
    (toggle_unused_interfaces (toggle_unused_interfaces st true) false).links = st.links := by
  have h1 := toggle_unused_spec st true hids
  have hptwise : ∀ n ∈ st.nodes,
      (nodeId ∘ (fun n =>
        if unusedInterface st n then { n with invisible := true } else n)) n = nodeId n := by
    intro n _
    by_cases hu : unusedInterface st n = true <;> simp [Function.comp, hu]
  have hids1 : ((toggle_unused_interfaces st true).nodes.map nodeId).Nodup := by
    rw [h1, List.map_map, List.map_congr_left hptwise]
    exact hids
  have h2 := toggle_unused_spec (toggle_unused_interfaces st true) false hids1
  have hlinks : (toggle_unused_interfaces st true).links = st.links := rfl
  refine ⟨h1, ?_, rfl⟩
  rw [h2, h1, List.map_map]
  apply List.map_congr_left
  intro n _
  simp only [Function.comp_apply]
  by_cases hu : unusedInterface st n = true
  · rw [if_pos hu,
      unusedInterface_congr hlinks { n with invisible := true } n rfl rfl,
      if_pos hu, if_pos hu]
  · rw [if_neg hu,
      unusedInterface_congr hlinks n n rfl rfl,
      if_neg hu]

theorem c7_hide_unused_interfaces_witness :
    (toggle_unused_interfaces w7State true).nodes =
      w7State.nodes.map (fun n =>
        if unusedInterface w7State n then { n with invisible := true } else n) ∧
    (toggle_unused_interfaces (toggle_unused_interfaces w7State true) false).nodes =
      w7State.nodes.map (fun n =>
        if unusedInterface w7State n then { n with invisible := false } else n) ∧
    (toggle_unused_interfaces (toggle_unused_interfaces w7State true) false).links
      = w7State.links :=
  c7_hide_unused_interfaces_exact w7State (by decide)

theorem c10_release_interface_witness :
    (∀ n ∈ wState.nodes, n.name ≠ wIface.name → n ∈ (release_node wState wIface).nodes) ∧
    (∀ n' ∈ (release_node wState wIface).nodes, n'.name = wIface.name →
      ∃ n, n ∈ wState.nodes ∧ n' = { n with fx := none, fy := none }) :=
  c10_release_interface_only_own_pin wState wIface rfl

end Kytos
